import Mathlib

/-!
Shallow embedding of the audio scheduling core of the Virtuoso Metronome
repository (`src/services/AudioEngine.ts`, with the caller conventions of
`src/App.tsx`).

Modelling conventions:
* Clock readings and note target times are rationals (`ℚ`), the exact
  idealisation of the floating-point `AudioContext.currentTime` arithmetic.
* A poll of the look-ahead scheduler is instantaneous: the clock reading
  `now` is fixed for the duration of one `scheduler()` invocation.
* The `while` loop of `scheduler()` is embedded with an explicit fuel; the
  fuel actually used (`itersFor`) is proved sufficient whenever the stored
  tempo is positive, so the fueled function coincides with the source loop.
* Decoding of custom sound data (`fetch` + `decodeAudioData`) is abstracted
  by an oracle `decode : String → DecodeResult`; an exception thrown inside
  `decodeBase64`'s `try` block is the oracle returning `.err`.
* `window.setTimeout` handles are modelled in `HostState` by a list of
  pending timer ids, for the claims about concurrent scheduler chains.
-/

/-- The `SoundProfile` enum of `src/types.ts`. -/
inductive SoundProfile where
  | DIGITAL
  | WOOD
  | METALLIC
  | CUSTOM
  deriving DecidableEq, Repr

/-- An opaque decoded audio buffer (`AudioBuffer`), identified by an id. -/
structure AudioBuffer where
  id : Nat
  deriving DecidableEq, Repr

/-- The sound the renderer realises for one beat, per the `switch` in
`scheduleNote`: custom-buffer playback, or one of the three synthesis
recipes with the parameters the source hardcodes for accent/non-accent. -/
inductive PlayedSound where
  | custom (buf : AudioBuffer)
  | digital (freq : ℚ)
  | wood (freq : ℚ)
  | metallic (f1 f2 gain decay : ℚ)
  deriving DecidableEq, Repr

/-- The mutable fields of the `AudioEngine` class. The `AudioContext` itself
is not represented: the model assumes it has been created (as `initAudio`
guarantees before any scheduling happens). -/
structure EngineState where
  nextNoteTime : ℚ
  lookahead : ℚ
  scheduleAheadTime : ℚ
  timerID : Option Nat
  bpm : ℚ
  beatsPerMeasure : Nat
  currentBeat : Nat
  profile : SoundProfile
  onBeat : Option (Nat → Nat)
  customAccentBuffer : Option AudioBuffer
  customBeatBuffer : Option AudioBuffer

/-- The field initialisers of the `AudioEngine` class. -/
def initialEngine : EngineState where
  nextNoteTime := 0
  lookahead := 25
  scheduleAheadTime := 1/10
  timerID := none
  bpm := 100
  beatsPerMeasure := 4
  currentBeat := 0
  profile := SoundProfile.DIGITAL
  onBeat := none
  customAccentBuffer := none
  customBeatBuffer := none

/-- `setParams(bpm, beatsPerMeasure, profile, onBeat)`: stores the four
values unconditionally, with no validation. -/
def setParams (s : EngineState) (bpm : ℚ) (beatsPerMeasure : Nat)
    (profile : SoundProfile) (onBeat : Option (Nat → Nat)) : EngineState :=
  { s with bpm := bpm, beatsPerMeasure := beatsPerMeasure,
           profile := profile, onBeat := onBeat }

/-- `playDigital(isAccent, time, masterGain)`: a sine oscillator at 1000 Hz
for an accent and 600 Hz otherwise. -/
def playDigital (isAccent : Bool) : PlayedSound :=
  PlayedSound.digital (if isAccent then 1000 else 600)

/-- The sound selected by the `switch (this.profile)` of `scheduleNote` for
a beat with accent flag `isAccent`: CUSTOM plays the accent buffer on an
accent beat and the regular buffer otherwise, falling back to
`playDigital` when the selected buffer is null; METALLIC and WOOD use the
source's synthesis parameters; DIGITAL (and default) is `playDigital`. -/
def renderSound (profile : SoundProfile)
    (customAccentBuffer customBeatBuffer : Option AudioBuffer)
    (isAccent : Bool) : PlayedSound :=
  match profile with
  | SoundProfile.CUSTOM =>
    match (if isAccent then customAccentBuffer else customBeatBuffer) with
    | some buffer => PlayedSound.custom buffer
    | none => playDigital isAccent
  | SoundProfile.METALLIC =>
    if isAccent then PlayedSound.metallic 2000 3200 (6/10) (3/10)
    else PlayedSound.metallic 1500 2400 (3/10) (1/20)
  | SoundProfile.WOOD =>
    PlayedSound.wood (if isAccent then 1000 else 700)
  | SoundProfile.DIGITAL =>
    playDigital isAccent

/-- A Scheduled Note: the (beat index, absolute target time) pair handed to
the renderer, together with the accent flag and the sound the renderer
realises for it. -/
structure ScheduledNote where
  beat : Nat
  time : ℚ
  accent : Bool
  sound : PlayedSound
  deriving DecidableEq, Repr

/-- `scheduleNote(beatNumber, time)`: computes
`isAccent = (beatNumber % this.beatsPerMeasure === 0)` and dispatches on the
profile. The model records the emitted note instead of producing audio. -/
def scheduleNote (s : EngineState) (beatNumber : Nat) (time : ℚ) : ScheduledNote where
  beat := beatNumber
  time := time
  accent := beatNumber % s.beatsPerMeasure == 0
  sound := renderSound s.profile s.customAccentBuffer s.customBeatBuffer
    (beatNumber % s.beatsPerMeasure == 0)

/-- `nextNote()`: advances `nextNoteTime` by `60.0 / this.bpm` seconds and
increments `currentBeat`. -/
def nextNote (s : EngineState) : EngineState :=
  { s with nextNoteTime := s.nextNoteTime + 60 / s.bpm,
           currentBeat := s.currentBeat + 1 }

/-- The `while` loop of `scheduler()`, with explicit fuel: while
`nextNoteTime < now + scheduleAheadTime`, emit
`scheduleNote(currentBeat, nextNoteTime)` and run `nextNote()`. Returns the
emitted notes in order together with the state at loop exit. -/
def schedulerAux : Nat → EngineState → ℚ → List ScheduledNote × EngineState
  | 0, s, _ => ([], s)
  | fuel + 1, s, now =>
    if s.nextNoteTime < now + s.scheduleAheadTime then
      let note := scheduleNote s s.currentBeat s.nextNoteTime
      let rest := schedulerAux fuel (nextNote s) now
      (note :: rest.1, rest.2)
    else
      ([], s)

/-- An upper bound on the number of iterations the `scheduler()` loop can
run starting from time `t` with limit `limit` and per-beat step `step`:
zero when the step is not positive (the loop would not terminate), else
the ceiling of the remaining window divided by the step. -/
def itersFor (t limit step : ℚ) : Nat :=
  if 0 < step then (Int.ceil ((limit - t) / step)).toNat else 0

/-- One `scheduler()` invocation at clock reading `now` (timer re-arming is
modelled separately in `HostState`). The fuel is `itersFor`, proved
sufficient whenever `0 < bpm`. -/
def scheduler (s : EngineState) (now : ℚ) : List ScheduledNote × EngineState :=
  schedulerAux (itersFor s.nextNoteTime (now + s.scheduleAheadTime) (60 / s.bpm)) s now

/-- The state mutation of `start()` before the first `scheduler()` call:
`currentBeat = 0` and `nextNoteTime = audioCtx.currentTime + 0.05`. -/
def startReset (s : EngineState) (now : ℚ) : EngineState :=
  { s with currentBeat := 0, nextNoteTime := now + 1/20 }

/-- `stop()`: clears the pending timer handle and resets `currentBeat` to 0;
nothing else is touched. -/
def stop (s : EngineState) : EngineState :=
  { s with timerID := none, currentBeat := 0 }

/-- A run of scheduler polls at the given clock readings: each poll runs
`scheduler` and the segments record, per poll, the clock reading and the
notes emitted during that poll. -/
def runSegs (s : EngineState) : List ℚ → List (ℚ × List ScheduledNote) × EngineState
  | [] => ([], s)
  | now :: rest =>
    let p := scheduler s now
    let q := runSegs p.2 rest
    ((now, p.1) :: q.1, q.2)

/-- A full run begun by `start()` at clock reading `r0` (which resets the
beat counter, sets `nextNoteTime = r0 + 0.05` and polls immediately),
followed by timer-driven polls at clock readings `rs`. -/
def runFrom (s : EngineState) (r0 : ℚ) (rs : List ℚ) :
    List (ℚ × List ScheduledNote) × EngineState :=
  runSegs (startReset s r0) (r0 :: rs)

/-- All notes of a run, in emission order. -/
def flatNotes (segs : List (ℚ × List ScheduledNote)) : List ScheduledNote :=
  (segs.map Prod.snd).flatten

/-! ## Host timer model

`window.setTimeout` / `window.clearTimeout`, for the claims about
concurrent scheduler chains: the host keeps the ids of the pending timer
callbacks; each pending id, when it fires, runs `scheduler()`, which
re-arms by registering a fresh id. Browser timer ids start at 1. -/

/-- The engine together with the host's pending `setTimeout` callbacks. -/
structure HostState where
  engine : EngineState
  pending : List Nat
  nextId : Nat

/-- Wrap an engine in a host with no pending timers. -/
def hostOf (s : EngineState) : HostState where
  engine := s
  pending := []
  nextId := 1

/-- One `scheduler()` invocation under the host: run the loop, then
`this.timerID = window.setTimeout(() => this.scheduler(), this.lookahead)`:
a fresh timer id is registered as pending and recorded in `timerID`. -/
def hostScheduler (h : HostState) (now : ℚ) : HostState × List ScheduledNote :=
  let p := scheduler h.engine now
  (⟨{ p.2 with timerID := some h.nextId }, h.pending ++ [h.nextId], h.nextId + 1⟩, p.1)

/-- `start()` under the host: reset the beat counter and `nextNoteTime`,
then run `scheduler()` immediately. Nothing inspects `timerID` or the
pending list first: there is no double-start guard. -/
def hostStart (h : HostState) (now : ℚ) : HostState × List ScheduledNote :=
  hostScheduler { h with engine := startReset h.engine now } now

/-- A pending timer fires: the host removes it from the queue and the
callback runs `scheduler()`, which re-arms. -/
def hostFire (h : HostState) (id : Nat) (now : ℚ) : HostState × List ScheduledNote :=
  hostScheduler { h with pending := h.pending.erase id } now

/-- `stop()` under the host: `clearTimeout` cancels the timer id stored in
`timerID` (only that one), and the engine drops the handle and resets
`currentBeat`. -/
def hostStop (h : HostState) : HostState :=
  match h.engine.timerID with
  | some id => ⟨stop h.engine, h.pending.erase id, h.nextId⟩
  | none => ⟨stop h.engine, h.pending, h.nextId⟩

/-! ## Custom sound decoding -/

/-- Outcome of `fetch(base64)` + `audioCtx.decodeAudioData`: either a
decoded buffer, or a raised error (malformed or unsupported data). -/
inductive DecodeResult where
  | ok (buf : AudioBuffer)
  | err (msg : String)
  deriving DecidableEq

/-- The log line of `console.error` in `decodeBase64`'s catch block. -/
def decodeFailureLog : String := "Failed to decode custom sound"

/-- `decodeBase64(base64)`: the `try` block is the oracle `decode`; on an
`ok` result the buffer is returned, and a raised error is caught, logged,
and turned into `null`. Nothing escapes to the caller. -/
def decodeBase64 (decode : String → DecodeResult) (base64 : String) :
    Option AudioBuffer × List String :=
  match decode base64 with
  | DecodeResult.ok buf => (some buf, [])
  | DecodeResult.err _ => (none, [decodeFailureLog])

/-- `setCustomSounds(accentData, beatData)`: each non-null datum is decoded
(possibly to `null` on failure), a null datum clears the buffer; the
resulting buffers replace the previous ones. The returned list collects
the log lines; the function is total: no failure is raised to the caller. -/
def setCustomSounds (decode : String → DecodeResult) (s : EngineState)
    (accentData beatData : Option String) : EngineState × List String :=
  let a := match accentData with
    | some d => decodeBase64 decode d
    | none => (none, [])
  let b := match beatData with
    | some d => decodeBase64 decode d
    | none => (none, [])
  ({ s with customAccentBuffer := a.1, customBeatBuffer := b.1 }, a.2 ++ b.2)

/-! ## Poll-delay hypotheses -/

/-- `gapsLt w prev rs`: each successive clock reading in `rs` is less than
`w` after its predecessor, starting from `prev` — the assumption that no
poll is delayed by as much as the schedule-ahead window. -/
def gapsLt (w : ℚ) : ℚ → List ℚ → Prop
  | _, [] => True
  | prev, r :: rest => r < prev + w ∧ gapsLt w r rest

/-! ## Basic frame facts -/

theorem scheduleNote_update (s : EngineState) (x : ℚ) (c : Nat) (b : Nat) (τ : ℚ) :
    scheduleNote { s with nextNoteTime := x, currentBeat := c } b τ = scheduleNote s b τ := rfl

theorem scheduleNote_nextNote (s : EngineState) (b : Nat) (τ : ℚ) :
    scheduleNote (nextNote s) b τ = scheduleNote s b τ := rfl

/-! ## Characterisation of one scheduler poll -/

/-- The state at loop exit: `nextNoteTime` advanced once per emitted note,
`currentBeat` counted up once per emitted note, every other field as on
entry. -/
theorem schedulerAux_snd : ∀ (F : Nat) (s : EngineState) (now : ℚ),
    (schedulerAux F s now).2 =
      { s with
        nextNoteTime := s.nextNoteTime +
          ((schedulerAux F s now).1.length : ℚ) * (60 / s.bpm),
        currentBeat := s.currentBeat + (schedulerAux F s now).1.length }
  | 0, s, now => by simp [schedulerAux]
  | F + 1, s, now => by
    by_cases h : s.nextNoteTime < now + s.scheduleAheadTime
    · have ih := schedulerAux_snd F (nextNote s) now
      simp only [schedulerAux, if_pos h, List.length_cons]
      rw [ih]
      simp only [nextNote]
      congr 1
      · push_cast
        ring
      · omega
    · simp [schedulerAux, if_neg h]

/-- The `i`-th note emitted during one poll: beat index `currentBeat + i`,
target time `nextNoteTime + i * 60/bpm`, accent and sound as computed by
`scheduleNote` from the entry state. -/
theorem schedulerAux_get : ∀ (F : Nat) (s : EngineState) (now : ℚ) (i : Nat)
    (h : i < (schedulerAux F s now).1.length),
    (schedulerAux F s now).1.get ⟨i, h⟩ =
      scheduleNote s (s.currentBeat + i) (s.nextNoteTime + (i : ℚ) * (60 / s.bpm))
  | 0, s, now, i, h => by simp [schedulerAux] at h
  | F + 1, s, now, i, h => by
    by_cases hc : s.nextNoteTime < now + s.scheduleAheadTime
    · match i with
      | 0 => simp [schedulerAux, if_pos hc]
      | i + 1 =>
        have h' : i < (schedulerAux F (nextNote s) now).1.length := by
          simp only [schedulerAux, if_pos hc, List.length_cons] at h
          omega
        have ih := schedulerAux_get F (nextNote s) now i h'
        have e1 : (nextNote s).currentBeat + i = s.currentBeat + (i + 1) := by
          simp only [nextNote]
          omega
        have e2 : (nextNote s).nextNoteTime + (i : ℚ) * (60 / (nextNote s).bpm) =
            s.nextNoteTime + ((i + 1 : Nat) : ℚ) * (60 / s.bpm) := by
          simp only [nextNote]
          push_cast
          ring
        rw [e1, e2, scheduleNote_nextNote] at ih
        simpa [schedulerAux, if_pos hc] using ih
    · simp [schedulerAux, if_neg hc] at h

/-- Every note emitted during a poll was emitted under the loop guard: its
target time is below `now + scheduleAheadTime`. -/
theorem schedulerAux_time_lt : ∀ (F : Nat) (s : EngineState) (now : ℚ),
    ∀ n ∈ (schedulerAux F s now).1, n.time < now + s.scheduleAheadTime
  | 0, _, _ => by simp [schedulerAux]
  | F + 1, s, now => by
    by_cases hc : s.nextNoteTime < now + s.scheduleAheadTime
    · intro n hn
      simp only [schedulerAux, if_pos hc, List.mem_cons] at hn
      rcases hn with rfl | hn
      · simpa [scheduleNote] using hc
      · exact schedulerAux_time_lt F (nextNote s) now n hn
    · simp [schedulerAux, if_neg hc]

/-- When the per-beat step is nonnegative, every note emitted during a poll
has target time at least the entry `nextNoteTime`. -/
theorem schedulerAux_time_ge : ∀ (F : Nat) (s : EngineState) (now : ℚ),
    0 ≤ 60 / s.bpm → ∀ n ∈ (schedulerAux F s now).1, s.nextNoteTime ≤ n.time
  | 0, _, _, _ => by simp [schedulerAux]
  | F + 1, s, now, hstep => by
    by_cases hc : s.nextNoteTime < now + s.scheduleAheadTime
    · intro n hn
      simp only [schedulerAux, if_pos hc, List.mem_cons] at hn
      rcases hn with rfl | hn
      · simp [scheduleNote]
      · have := schedulerAux_time_ge F (nextNote s) now hstep n hn
        simp only [nextNote] at this
        linarith
    · simp [schedulerAux, if_neg hc]

/-- With enough fuel to cover the window, the loop exits with its guard
false: `nextNoteTime` has reached `now + scheduleAheadTime`. -/
theorem schedulerAux_final_ge : ∀ (F : Nat) (s : EngineState) (now : ℚ),
    now + s.scheduleAheadTime ≤ s.nextNoteTime + (F : ℚ) * (60 / s.bpm) →
    now + s.scheduleAheadTime ≤ (schedulerAux F s now).2.nextNoteTime
  | 0, s, now, h => by
    simpa [schedulerAux] using h
  | F + 1, s, now, h => by
    by_cases hc : s.nextNoteTime < now + s.scheduleAheadTime
    · have h' : now + (nextNote s).scheduleAheadTime ≤
          (nextNote s).nextNoteTime + (F : ℚ) * (60 / (nextNote s).bpm) := by
        simp only [nextNote]
        push_cast at h ⊢
        linarith
      have := schedulerAux_final_ge F (nextNote s) now h'
      simpa [schedulerAux, if_pos hc, nextNote] using this
    · simp only [schedulerAux, if_neg hc]
      linarith [not_lt.mp hc]

/-- For a positive tempo the fuel `itersFor` covers the whole window. -/
theorem itersFor_sufficient (s : EngineState) (now : ℚ) (hb : 0 < s.bpm) :
    now + s.scheduleAheadTime ≤ s.nextNoteTime +
      ((itersFor s.nextNoteTime (now + s.scheduleAheadTime) (60 / s.bpm) : Nat) : ℚ) *
        (60 / s.bpm) := by
  have hstep : 0 < 60 / s.bpm := div_pos (by norm_num) hb
  set t := s.nextNoteTime with ht
  set limit := now + s.scheduleAheadTime with hl
  set step := 60 / s.bpm with hs
  have hF : (itersFor t limit step : ℚ) = ((Int.ceil ((limit - t) / step)).toNat : ℚ) := by
    rw [itersFor, if_pos hstep]
  rw [hF]
  have h1 : (limit - t) / step ≤ ((Int.ceil ((limit - t) / step)).toNat : ℚ) := by
    have h2 : ((limit - t) / step : ℚ) ≤ (Int.ceil ((limit - t) / step) : ℚ) :=
      Int.le_ceil _
    have h3 : (Int.ceil ((limit - t) / step) : ℤ) ≤
        ((Int.ceil ((limit - t) / step)).toNat : ℤ) := Int.self_le_toNat _
    have h4 : ((Int.ceil ((limit - t) / step) : ℤ) : ℚ) ≤
        (((Int.ceil ((limit - t) / step)).toNat : ℤ) : ℚ) := by
      exact_mod_cast h3
    push_cast at h4
    linarith
  have h5 : limit - t ≤ ((Int.ceil ((limit - t) / step)).toNat : ℚ) * step :=
    (div_le_iff₀ hstep).mp h1
  linarith

/-- For a positive tempo, one `scheduler()` poll runs its loop to
completion: at exit `nextNoteTime` has reached `now + scheduleAheadTime`. -/
theorem scheduler_final_ge (s : EngineState) (now : ℚ) (hb : 0 < s.bpm) :
    now + s.scheduleAheadTime ≤ (scheduler s now).2.nextNoteTime :=
  schedulerAux_final_ge _ s now (itersFor_sufficient s now hb)

/-- The number of notes one poll emits is the unique `n` with all of the
first `n` target times inside the window and the `n`-th outside it. -/
theorem scheduler_length_eq (s : EngineState) (now : ℚ) (hb : 0 < s.bpm) (n : Nat)
    (hlt : ∀ i : Nat, i < n →
      s.nextNoteTime + (i : ℚ) * (60 / s.bpm) < now + s.scheduleAheadTime)
    (hge : now + s.scheduleAheadTime ≤ s.nextNoteTime + (n : ℚ) * (60 / s.bpm)) :
    (scheduler s now).1.length = n := by
  set L := (scheduler s now).1.length with hL
  rcases lt_trichotomy L n with h | h | h
  · exfalso
    have hfin := scheduler_final_ge s now hb
    have hsnd := schedulerAux_snd
      (itersFor s.nextNoteTime (now + s.scheduleAheadTime) (60 / s.bpm)) s now
    rw [show (schedulerAux (itersFor s.nextNoteTime (now + s.scheduleAheadTime)
      (60 / s.bpm)) s now) = scheduler s now from rfl] at hsnd
    rw [hsnd] at hfin
    have := hlt L h
    simp only [← hL] at hfin
    linarith
  · exact h
  · exfalso
    have hn : n < (scheduler s now).1.length := h
    have hget := schedulerAux_get
      (itersFor s.nextNoteTime (now + s.scheduleAheadTime) (60 / s.bpm)) s now n hn
    have hmem : (scheduler s now).1.get ⟨n, hn⟩ ∈ (scheduler s now).1 :=
      List.get_mem _ _ hn
    have hlt' := schedulerAux_time_lt
      (itersFor s.nextNoteTime (now + s.scheduleAheadTime) (60 / s.bpm)) s now
      _ hmem
    rw [show ((scheduler s now).1.get ⟨n, hn⟩) =
      scheduleNote s (s.currentBeat + n)
        (s.nextNoteTime + (n : ℚ) * (60 / s.bpm)) from hget] at hlt'
    simp only [scheduleNote] at hlt'
    linarith

/-! ## Characterisation of a run of polls -/

theorem scheduler_snd (s : EngineState) (now : ℚ) :
    (scheduler s now).2 = { s with
      nextNoteTime := s.nextNoteTime +
        ((scheduler s now).1.length : ℚ) * (60 / s.bpm),
      currentBeat := s.currentBeat + (scheduler s now).1.length } :=
  schedulerAux_snd _ s now

theorem scheduler_get (s : EngineState) (now : ℚ) (i : Nat)
    (h : i < (scheduler s now).1.length) :
    (scheduler s now).1.get ⟨i, h⟩ =
      scheduleNote s (s.currentBeat + i) (s.nextNoteTime + (i : ℚ) * (60 / s.bpm)) :=
  schedulerAux_get _ s now i h

theorem scheduler_time_lt (s : EngineState) (now : ℚ) :
    ∀ n ∈ (scheduler s now).1, n.time < now + s.scheduleAheadTime :=
  schedulerAux_time_lt _ s now

theorem scheduler_time_ge (s : EngineState) (now : ℚ) (h : 0 ≤ 60 / s.bpm) :
    ∀ n ∈ (scheduler s now).1, s.nextNoteTime ≤ n.time :=
  schedulerAux_time_ge _ s now h

theorem scheduler_snd_currentBeat (s : EngineState) (now : ℚ) :
    (scheduler s now).2.currentBeat = s.currentBeat + (scheduler s now).1.length := by
  rw [scheduler_snd]

theorem scheduler_snd_nextNoteTime (s : EngineState) (now : ℚ) :
    (scheduler s now).2.nextNoteTime =
      s.nextNoteTime + ((scheduler s now).1.length : ℚ) * (60 / s.bpm) := by
  rw [scheduler_snd]

theorem scheduler_snd_bpm (s : EngineState) (now : ℚ) :
    (scheduler s now).2.bpm = s.bpm := by
  rw [scheduler_snd]

theorem scheduler_snd_scheduleAheadTime (s : EngineState) (now : ℚ) :
    (scheduler s now).2.scheduleAheadTime = s.scheduleAheadTime := by
  rw [scheduler_snd]

theorem scheduleNote_sched (s : EngineState) (now : ℚ) (b : Nat) (τ : ℚ) :
    scheduleNote (scheduler s now).2 b τ = scheduleNote s b τ := by
  rw [scheduler_snd]
  exact scheduleNote_update s _ _ b τ

theorem runSegs_nil (s : EngineState) : runSegs s [] = ([], s) := rfl

theorem runSegs_cons (s : EngineState) (now : ℚ) (rest : List ℚ) :
    runSegs s (now :: rest) =
      ((now, (scheduler s now).1) :: (runSegs (scheduler s now).2 rest).1,
        (runSegs (scheduler s now).2 rest).2) := rfl

theorem flatNotes_nil : flatNotes [] = [] := rfl

theorem flatNotes_cons (r : ℚ) (ns : List ScheduledNote)
    (segs : List (ℚ × List ScheduledNote)) :
    flatNotes ((r, ns) :: segs) = ns ++ flatNotes segs := rfl

/-- The state after a run of polls: `nextNoteTime` advanced once per note
emitted during the run, `currentBeat` counted up once per note, every
other field as on entry. -/
theorem runSegs_snd : ∀ (polls : List ℚ) (s : EngineState),
    (runSegs s polls).2 = { s with
      nextNoteTime := s.nextNoteTime +
        ((flatNotes (runSegs s polls).1).length : ℚ) * (60 / s.bpm),
      currentBeat := s.currentBeat + (flatNotes (runSegs s polls).1).length }
  | [], s => by simp [runSegs_nil, flatNotes_nil]
  | now :: rest, s => by
    have ih := runSegs_snd rest (scheduler s now).2
    rw [runSegs_cons]
    simp only [flatNotes_cons, List.length_append]
    rw [ih, scheduler_snd s now]
    simp only []
    congr 1
    · push_cast
      ring
    · omega

/-- The `i`-th note of a run: beat index `currentBeat + i`, target time
`nextNoteTime + i * 60/bpm`, accent and sound as computed by
`scheduleNote` from the entry state. -/
theorem runSegs_get : ∀ (polls : List ℚ) (s : EngineState) (i : Nat)
    (h : i < (flatNotes (runSegs s polls).1).length),
    (flatNotes (runSegs s polls).1).get ⟨i, h⟩ =
      scheduleNote s (s.currentBeat + i) (s.nextNoteTime + (i : ℚ) * (60 / s.bpm))
  | [], s, i, h => by simp [runSegs_nil, flatNotes_nil] at h
  | now :: rest, s, i, h => by
    have h' : i < ((scheduler s now).1 ++
        flatNotes (runSegs (scheduler s now).2 rest).1).length := h
    change ((scheduler s now).1 ++
      flatNotes (runSegs (scheduler s now).2 rest).1).get ⟨i, h'⟩ = _
    rw [List.get_eq_getElem]
    by_cases hi : i < (scheduler s now).1.length
    · rw [List.getElem_append_left hi]
      have hg := scheduler_get s now i hi
      rw [List.get_eq_getElem] at hg
      exact hg
    · push_neg at hi
      have hl2 : i < (scheduler s now).1.length +
          (flatNotes (runSegs (scheduler s now).2 rest).1).length := by
        simpa [List.length_append] using h'
      have hlen : i - (scheduler s now).1.length <
          (flatNotes (runSegs (scheduler s now).2 rest).1).length := by omega
      rw [List.getElem_append_right hi]
      have ih := runSegs_get rest (scheduler s now).2 (i - (scheduler s now).1.length) hlen
      rw [List.get_eq_getElem] at ih
      rw [scheduleNote_sched, scheduler_snd_currentBeat, scheduler_snd_nextNoteTime,
        scheduler_snd_bpm] at ih
      have e1 : s.currentBeat + (scheduler s now).1.length +
          (i - (scheduler s now).1.length) = s.currentBeat + i := by omega
      have e2 : s.nextNoteTime + ((scheduler s now).1.length : ℚ) * (60 / s.bpm) +
          ((i - (scheduler s now).1.length : Nat) : ℚ) * (60 / s.bpm) =
          s.nextNoteTime + (i : ℚ) * (60 / s.bpm) := by
        rw [Nat.cast_sub hi]
        ring
      rw [e1, e2] at ih
      exact ih

/-- Every note of a run carries the accent flag and the sound that
`scheduleNote` computes from its beat index and the engine's parameters at
the start of the run (the run itself never changes them). -/
theorem runSegs_note_shape (polls : List ℚ) (s : EngineState) :
    ∀ n ∈ flatNotes (runSegs s polls).1,
      n.accent = (n.beat % s.beatsPerMeasure == 0) ∧
      n.sound = renderSound s.profile s.customAccentBuffer s.customBeatBuffer n.accent := by
  intro n hn
  rcases List.mem_iff_get.mp hn with ⟨⟨i, hi⟩, rfl⟩
  rw [runSegs_get polls s i hi]
  simp [scheduleNote]

/-- The safety invariant: if on entry `nextNoteTime` is at least one full
schedule-ahead window past the previous poll's clock reading, and every
poll happens less than one window after its predecessor, then every note
of the run is handed to the renderer strictly before its target time. -/
theorem runSegs_safety : ∀ (polls : List ℚ) (s : EngineState) (prev : ℚ),
    0 < s.bpm → s.scheduleAheadTime = 1/10 → gapsLt (1/10) prev polls →
    prev + 1/10 ≤ s.nextNoteTime →
    ∀ pr ∈ (runSegs s polls).1, ∀ n ∈ pr.2, pr.1 < n.time
  | [], _, _, _, _, _, _ => by simp [runSegs_nil]
  | r :: rest, s, prev, hb, hw, hgap, hinv => by
    obtain ⟨hr, hgap'⟩ := hgap
    intro pr hpr n hn
    rw [runSegs_cons] at hpr
    simp only [List.mem_cons] at hpr
    rcases hpr with rfl | hpr
    · show r < n.time
      have hge := scheduler_time_ge s r (le_of_lt (div_pos (by norm_num) hb)) n hn
      linarith
    · have hb' : 0 < (scheduler s r).2.bpm := by
        rw [scheduler_snd_bpm]
        exact hb
      have hw' : (scheduler s r).2.scheduleAheadTime = 1/10 := by
        rw [scheduler_snd_scheduleAheadTime]
        exact hw
      have hinv' : r + 1/10 ≤ (scheduler s r).2.nextNoteTime := by
        have hfin := scheduler_final_ge s r hb
        rw [hw] at hfin
        exact hfin
      exact runSegs_safety rest (scheduler s r).2 r hb' hw' hgap' hinv' pr hpr n hn

theorem runFrom_def (s : EngineState) (r0 : ℚ) (rs : List ℚ) :
    runFrom s r0 rs = runSegs (startReset s r0) (r0 :: rs) := rfl

@[simp] theorem scheduleNote_beat (s : EngineState) (b : Nat) (τ : ℚ) :
    (scheduleNote s b τ).beat = b := rfl

@[simp] theorem scheduleNote_time (s : EngineState) (b : Nat) (τ : ℚ) :
    (scheduleNote s b τ).time = τ := rfl

@[simp] theorem scheduleNote_accent (s : EngineState) (b : Nat) (τ : ℚ) :
    (scheduleNote s b τ).accent = (b % s.beatsPerMeasure == 0) := rfl

@[simp] theorem scheduleNote_sound (s : EngineState) (b : Nat) (τ : ℚ) :
    (scheduleNote s b τ).sound =
      renderSound s.profile s.customAccentBuffer s.customBeatBuffer
        (b % s.beatsPerMeasure == 0) := rfl

theorem runSegs_snd_nextNoteTime (polls : List ℚ) (s : EngineState) :
    (runSegs s polls).2.nextNoteTime = s.nextNoteTime +
      ((flatNotes (runSegs s polls).1).length : ℚ) * (60 / s.bpm) := by
  rw [runSegs_snd]

theorem runSegs_snd_currentBeat (polls : List ℚ) (s : EngineState) :
    (runSegs s polls).2.currentBeat =
      s.currentBeat + (flatNotes (runSegs s polls).1).length := by
  rw [runSegs_snd]

theorem runSegs_snd_bpm (polls : List ℚ) (s : EngineState) :
    (runSegs s polls).2.bpm = s.bpm := by
  rw [runSegs_snd]

/-- A poll whose window contains exactly the next target time emits exactly
that one note. -/
theorem scheduler_eq_singleton (s : EngineState) (now : ℚ) (hb : 0 < s.bpm)
    (h0 : s.nextNoteTime < now + s.scheduleAheadTime)
    (h1 : now + s.scheduleAheadTime ≤ s.nextNoteTime + 60 / s.bpm) :
    (scheduler s now).1 = [scheduleNote s s.currentBeat s.nextNoteTime] := by
  have hlen : (scheduler s now).1.length = 1 := by
    apply scheduler_length_eq s now hb 1
    · intro i hi
      have hz : i = 0 := by omega
      subst hz
      push_cast
      linarith
    · push_cast
      linarith
  apply List.ext_get
  · rw [hlen]
    rfl
  · intro n h₁ h₂
    have hz : n = 0 := by
      simp only [List.length_singleton] at h₂
      omega
    subst hz
    rw [scheduler_get s now 0 h₁]
    simp

/-- The state after a poll that emitted exactly one note. -/
theorem scheduler_snd_len1 (s : EngineState) (now : ℚ)
    (hlen : (scheduler s now).1.length = 1) :
    (scheduler s now).2 = { s with nextNoteTime := s.nextNoteTime + 60 / s.bpm,
                                   currentBeat := s.currentBeat + 1 } := by
  rw [scheduler_snd, hlen]
  congr 1
  push_cast
  ring

/-- A run consisting of a single poll, with window covering exactly one
beat, emits exactly that beat. -/
theorem runSegs_single_poll (s : EngineState) (now : ℚ) (hb : 0 < s.bpm)
    (h0 : s.nextNoteTime < now + s.scheduleAheadTime)
    (h1 : now + s.scheduleAheadTime ≤ s.nextNoteTime + 60 / s.bpm) :
    flatNotes (runSegs s [now]).1 = [scheduleNote s s.currentBeat s.nextNoteTime] := by
  simp only [runSegs_cons, runSegs_nil, flatNotes_cons, flatNotes_nil, List.append_nil]
  exact scheduler_eq_singleton s now hb h0 h1

/-- A run of two polls, each of whose windows covers exactly one beat,
emits exactly those two beats. -/
theorem runSegs_two_polls (s : EngineState) (r1 r2 : ℚ) (hb : 0 < s.bpm)
    (h0 : s.nextNoteTime < r1 + s.scheduleAheadTime)
    (h1 : r1 + s.scheduleAheadTime ≤ s.nextNoteTime + 60 / s.bpm)
    (h2 : s.nextNoteTime + 60 / s.bpm < r2 + s.scheduleAheadTime)
    (h3 : r2 + s.scheduleAheadTime ≤ s.nextNoteTime + 60 / s.bpm + 60 / s.bpm) :
    flatNotes (runSegs s [r1, r2]).1 =
      [scheduleNote s s.currentBeat s.nextNoteTime,
       scheduleNote s (s.currentBeat + 1) (s.nextNoteTime + 60 / s.bpm)] := by
  have hs1 := scheduler_eq_singleton s r1 hb h0 h1
  have hlen1 : (scheduler s r1).1.length = 1 := by
    rw [hs1]
    rfl
  have hsnd1 := scheduler_snd_len1 s r1 hlen1
  have hsing2 := scheduler_eq_singleton
    { s with nextNoteTime := s.nextNoteTime + 60 / s.bpm,
             currentBeat := s.currentBeat + 1 } r2 hb h2 h3
  simp only [runSegs_cons, runSegs_nil, flatNotes_cons, flatNotes_nil, List.append_nil]
  rw [hs1, hsnd1, hsing2]
  rfl

/-! ## Concrete runs used by witnesses and counterexamples -/

/-- The engine as `App.tsx` configures it for a 60 bpm, 4/4, Digital run. -/
def engRun : EngineState := setParams initialEngine 60 4 SoundProfile.DIGITAL none

/-- The same engine right after `start()` at clock reading 0. -/
def engRun0 : EngineState := startReset engRun 0

theorem engRun0_notes :
    flatNotes (runSegs engRun0 [0]).1 = [scheduleNote engRun0 0 (1/20)] := by
  have h := runSegs_single_poll engRun0 0
    (by show (0 : ℚ) < 60; norm_num)
    (by show (0 : ℚ) + 1/20 < 0 + 1/10; norm_num)
    (by show (0 : ℚ) + 1/10 ≤ 0 + 1/20 + 60/60; norm_num)
  rw [h]
  have e : engRun0.nextNoteTime = 1/20 := by
    show (0 : ℚ) + 1/20 = 1/20
    norm_num
  rw [e]
  rfl

/-- The engine state at the moment of the mid-run tempo change. -/
def engMid : EngineState := (runSegs engRun0 [0]).2

theorem engMid_eq : engMid = { engRun0 with nextNoteTime := 21/20, currentBeat := 1 } := by
  have hs1 := scheduler_eq_singleton engRun0 0
    (by show (0 : ℚ) < 60; norm_num)
    (by show (0 : ℚ) + 1/20 < 0 + 1/10; norm_num)
    (by show (0 : ℚ) + 1/10 ≤ 0 + 1/20 + 60/60; norm_num)
  have hlen : (scheduler engRun0 0).1.length = 1 := by
    rw [hs1]
    rfl
  show (runSegs engRun0 [0]).2 = _
  rw [runSegs_cons]
  show (runSegs (scheduler engRun0 0).2 []).2 = _
  rw [runSegs_nil]
  show (scheduler engRun0 0).2 = _
  rw [scheduler_snd_len1 engRun0 0 hlen]
  congr 1
  · show (0 : ℚ) + 1/20 + 60/60 = 21/20
    norm_num

/-- The engine right after `setParams` switches the tempo to 120 mid-run. -/
def engT2 : EngineState := setParams engMid 120 4 SoundProfile.DIGITAL none

theorem engT2_notes :
    flatNotes (runSegs engT2 [1]).1 = [scheduleNote engT2 1 (21/20)] := by
  have ent : engT2.nextNoteTime = 21/20 := by
    show engMid.nextNoteTime = 21/20
    rw [engMid_eq]
  have ecb : engT2.currentBeat = 1 := by
    show engMid.currentBeat = 1
    rw [engMid_eq]
  have esat : engT2.scheduleAheadTime = 1/10 := by
    show engMid.scheduleAheadTime = 1/10
    rw [engMid_eq]
    rfl
  have h := runSegs_single_poll engT2 1
    (by show (0 : ℚ) < 120; norm_num)
    (by rw [ent, esat]; show (21 : ℚ)/20 < 1 + 1/10; norm_num)
    (by rw [ent, esat]; show (1 : ℚ) + 1/10 ≤ 21/20 + 60/120; norm_num)
  rw [h, ent, ecb]

/-- The engine configured for the accent-disabling sentinel
`beatsPerMeasure = 99999` (`App.tsx` with accent off), after `start()`. -/
def engOff0 : EngineState :=
  startReset (setParams initialEngine 60 99999 SoundProfile.DIGITAL none) 0

theorem engOff0_notes :
    flatNotes (runSegs engOff0 [0]).1 = [scheduleNote engOff0 0 (1/20)] := by
  have h := runSegs_single_poll engOff0 0
    (by show (0 : ℚ) < 60; norm_num)
    (by show (0 : ℚ) + 1/20 < 0 + 1/10; norm_num)
    (by show (0 : ℚ) + 1/10 ≤ 0 + 1/20 + 60/60; norm_num)
  rw [h]
  have e : engOff0.nextNoteTime = 1/20 := by
    show (0 : ℚ) + 1/20 = 1/20
    norm_num
  rw [e]
  rfl

/-- The engine under the Custom profile with only an accent buffer set,
after `start()` at clock reading 0. -/
def engC : EngineState :=
  { setParams initialEngine 60 4 SoundProfile.CUSTOM none with
      customAccentBuffer := some ⟨7⟩, customBeatBuffer := none }

/-- The Custom-profile engine right after `start()` at clock reading 0. -/
def engC0 : EngineState := startReset engC 0

theorem engC0_notes :
    flatNotes (runSegs engC0 [0, 1]).1 =
      [scheduleNote engC0 0 (1/20), scheduleNote engC0 1 (21/20)] := by
  have h := runSegs_two_polls engC0 0 1
    (by show (0 : ℚ) < 60; norm_num)
    (by show (0 : ℚ) + 1/20 < 0 + 1/10; norm_num)
    (by show (0 : ℚ) + 1/10 ≤ 0 + 1/20 + 60/60; norm_num)
    (by show (0 : ℚ) + 1/20 + 60/60 < 1 + 1/10; norm_num)
    (by show (1 : ℚ) + 1/10 ≤ 0 + 1/20 + 60/60 + 60/60; norm_num)
  rw [h]
  have e1 : engC0.nextNoteTime = 1/20 := by
    show (0 : ℚ) + 1/20 = 1/20
    norm_num
  have e2 : engC0.nextNoteTime + 60 / engC0.bpm = 21/20 := by
    show (0 : ℚ) + 1/20 + 60/60 = 21/20
    norm_num
  rw [e2, e1]
  rfl

/-! ## Claim theorems -/

/-- Claim C1: for a run whose tempo is held constant at `T ∈ [1,240]`, the
`i`-th note of the run carries beat index exactly `i` (so indices start at
0 and increase by exactly 1 per note, none skipped or duplicated) and
target time `r0 + 0.05 + i * 60/T`; consequently consecutive scheduled
note target times differ by exactly `60/T` seconds. -/
theorem constant_tempo_spacing (T : ℕ) (hT1 : 1 ≤ T) (hT2 : T ≤ 240)
    (s : EngineState) (B : Nat) (p : SoundProfile) (cb : Option (Nat → Nat))
    (r0 : ℚ) (rs : List ℚ) (ns : List ScheduledNote)
    (hns : ns = flatNotes
      (runSegs (startReset (setParams s (T : ℚ) B p cb) r0) (r0 :: rs)).1) :
    (∀ i (h : i < ns.length),
      (ns.get ⟨i, h⟩).beat = i ∧
      (ns.get ⟨i, h⟩).time = r0 + 1/20 + (i : ℚ) * (60 / (T : ℚ))) ∧
    (∀ i (h : i + 1 < ns.length),
      (ns.get ⟨i + 1, h⟩).time =
        (ns.get ⟨i, Nat.lt_of_succ_lt h⟩).time + 60 / (T : ℚ) ∧
      (ns.get ⟨i + 1, h⟩).beat = (ns.get ⟨i, Nat.lt_of_succ_lt h⟩).beat + 1) := by
  subst hns
  have hbpm : (startReset (setParams s (T : ℚ) B p cb) r0).bpm = (T : ℚ) := rfl
  have hcb : (startReset (setParams s (T : ℚ) B p cb) r0).currentBeat = 0 := rfl
  have hnt : (startReset (setParams s (T : ℚ) B p cb) r0).nextNoteTime = r0 + 1/20 := rfl
  constructor
  · intro i h
    rw [runSegs_get (r0 :: rs) (startReset (setParams s (T : ℚ) B p cb) r0) i h]
    rw [scheduleNote_beat, scheduleNote_time, hbpm, hcb, hnt]
    exact ⟨by omega, by ring⟩
  · intro i h
    rw [runSegs_get (r0 :: rs) (startReset (setParams s (T : ℚ) B p cb) r0) (i + 1) h]
    rw [runSegs_get (r0 :: rs) (startReset (setParams s (T : ℚ) B p cb) r0) i
      (Nat.lt_of_succ_lt h)]
    rw [scheduleNote_beat, scheduleNote_time, scheduleNote_beat, scheduleNote_time,
      hbpm, hcb, hnt]
    constructor
    · push_cast
      ring
    · omega

/-- Witness for C1: the claim instantiated at tempo 60, a run of one poll. -/
theorem constant_tempo_spacing_witness :
    1 ≤ 60 ∧ 60 ≤ 240 ∧
    ((∀ i (h : i < (flatNotes (runSegs (startReset
        (setParams initialEngine ((60 : ℕ) : ℚ) 4 SoundProfile.DIGITAL none) 0)
        (0 :: [])).1).length),
      ((flatNotes (runSegs (startReset
        (setParams initialEngine ((60 : ℕ) : ℚ) 4 SoundProfile.DIGITAL none) 0)
        (0 :: [])).1).get ⟨i, h⟩).beat = i ∧
      ((flatNotes (runSegs (startReset
        (setParams initialEngine ((60 : ℕ) : ℚ) 4 SoundProfile.DIGITAL none) 0)
        (0 :: [])).1).get ⟨i, h⟩).time = 0 + 1/20 + (i : ℚ) * (60 / ((60 : ℕ) : ℚ))) ∧
    (∀ i (h : i + 1 < (flatNotes (runSegs (startReset
        (setParams initialEngine ((60 : ℕ) : ℚ) 4 SoundProfile.DIGITAL none) 0)
        (0 :: [])).1).length),
      ((flatNotes (runSegs (startReset
        (setParams initialEngine ((60 : ℕ) : ℚ) 4 SoundProfile.DIGITAL none) 0)
        (0 :: [])).1).get ⟨i + 1, h⟩).time =
        ((flatNotes (runSegs (startReset
        (setParams initialEngine ((60 : ℕ) : ℚ) 4 SoundProfile.DIGITAL none) 0)
        (0 :: [])).1).get ⟨i, Nat.lt_of_succ_lt h⟩).time + 60 / ((60 : ℕ) : ℚ) ∧
      ((flatNotes (runSegs (startReset
        (setParams initialEngine ((60 : ℕ) : ℚ) 4 SoundProfile.DIGITAL none) 0)
        (0 :: [])).1).get ⟨i + 1, h⟩).beat =
        ((flatNotes (runSegs (startReset
        (setParams initialEngine ((60 : ℕ) : ℚ) 4 SoundProfile.DIGITAL none) 0)
        (0 :: [])).1).get ⟨i, Nat.lt_of_succ_lt h⟩).beat + 1)) :=
  ⟨by decide, by decide,
    constant_tempo_spacing 60 (by decide) (by decide) initialEngine 4
      SoundProfile.DIGITAL none 0 [] _ rfl⟩

/-- Claim C2: in any run, a beat is flagged as an accent exactly when its
beat index is divisible by `beatsPerMeasure`. -/
theorem accent_iff_mod_beatsPerMeasure (B : ℕ) (hB : 1 ≤ B) (s : EngineState)
    (T : ℚ) (p : SoundProfile) (cb : Option (Nat → Nat)) (r0 : ℚ) (rs : List ℚ)
    (ns : List ScheduledNote)
    (hns : ns = flatNotes
      (runSegs (startReset (setParams s T B p cb) r0) (r0 :: rs)).1) :
    ∀ n ∈ ns, (n.accent = true ↔ n.beat % B = 0) := by
  subst hns
  intro n hn
  have hs := (runSegs_note_shape (r0 :: rs)
    (startReset (setParams s T B p cb) r0) n hn).1
  have hbm : (startReset (setParams s T B p cb) r0).beatsPerMeasure = B := rfl
  rw [hbm] at hs
  rw [hs]
  simp

/-- Claim C10: `stop()` clears only the pending timer handle and resets
`currentBeat`; tempo, beats-per-measure, profile, callback, both custom
buffers, `nextNoteTime` and the two timing constants are untouched; a
subsequent `start()` overwrites `nextNoteTime` (and `currentBeat`) itself,
so a run started from any stale `nextNoteTime`/`currentBeat` values is
identical to one started without them. -/
theorem stop_frame_effect (s : EngineState) (now x : ℚ) (c : Nat)
    (r0 : ℚ) (rs : List ℚ) :
    (stop s).bpm = s.bpm ∧
    (stop s).beatsPerMeasure = s.beatsPerMeasure ∧
    (stop s).profile = s.profile ∧
    (stop s).onBeat = s.onBeat ∧
    (stop s).customAccentBuffer = s.customAccentBuffer ∧
    (stop s).customBeatBuffer = s.customBeatBuffer ∧
    (stop s).nextNoteTime = s.nextNoteTime ∧
    (stop s).lookahead = s.lookahead ∧
    (stop s).scheduleAheadTime = s.scheduleAheadTime ∧
    (stop s).timerID = none ∧
    (stop s).currentBeat = 0 ∧
    (startReset (stop s) now).nextNoteTime = now + 1/20 ∧
    runFrom { s with nextNoteTime := x, currentBeat := c } r0 rs = runFrom s r0 rs :=
  ⟨rfl, rfl, rfl, rfl, rfl, rfl, rfl, rfl, rfl, rfl, rfl, rfl, rfl⟩

/-- Witness for C2: the first beat of a concrete 4/4 run, index 0, is an
accent (0 mod 4 = 0). -/
theorem accent_iff_mod_beatsPerMeasure_witness :
    1 ≤ 4 ∧
    ((scheduleNote engRun0 0 (1/20)).accent = true ↔
      (scheduleNote engRun0 0 (1/20)).beat % 4 = 0) :=
  ⟨by decide,
    accent_iff_mod_beatsPerMeasure 4 (by decide) initialEngine 60
      SoundProfile.DIGITAL none 0 [] _ rfl (scheduleNote engRun0 0 (1/20))
      (by show scheduleNote engRun0 0 (1/20) ∈ flatNotes (runSegs engRun0 [0]).1
          rw [engRun0_notes]
          exact List.mem_singleton_self _)⟩

/-- Claim C3 counterexample: with the sentinel `beatsPerMeasure = 99999`
(the App's accent-off value), the very first beat of a run — beat 0 — is
flagged as an accent, because `0 % 99999 = 0`; so it is false that no beat
of the run is ever flagged. -/
theorem sentinel_beat_zero_accent_cex :
    (flatNotes (runSegs engOff0 [0]).1).map ScheduledNote.beat = [0] ∧
    (flatNotes (runSegs engOff0 [0]).1).map ScheduledNote.accent = [true] ∧
    ¬ (∀ n ∈ flatNotes (runSegs engOff0 [0]).1, n.accent = false) := by
  refine ⟨?_, ?_, ?_⟩
  · rw [engOff0_notes]
    rfl
  · rw [engOff0_notes]
    rfl
  · intro hall
    have hfalse := hall (scheduleNote engOff0 0 (1/20))
      (by rw [engOff0_notes]; exact List.mem_singleton_self _)
    rw [show (scheduleNote engOff0 0 (1/20)).accent = true from rfl] at hfalse
    exact absurd hfalse (by decide)

/-- Claim C3 amended: with `beatsPerMeasure = 99999`, a beat is flagged
accent iff its index is a multiple of 99999; in particular beat 0 of every
run (including the first beat after every `start()`) is flagged accent,
while every other beat of a realistic run (index below 99999) never is. -/
theorem sentinel_accent_amended (s : EngineState) (T : ℚ) (p : SoundProfile)
    (cb : Option (Nat → Nat)) (r0 : ℚ) (rs : List ℚ) (ns : List ScheduledNote)
    (hns : ns = flatNotes
      (runSegs (startReset (setParams s T 99999 p cb) r0) (r0 :: rs)).1) :
    ∀ n ∈ ns,
      (n.accent = true ↔ n.beat % 99999 = 0) ∧
      (n.beat = 0 → n.accent = true) ∧
      (0 < n.beat → n.beat < 99999 → n.accent = false) := by
  subst hns
  intro n hn
  have hs := (runSegs_note_shape (r0 :: rs)
    (startReset (setParams s T 99999 p cb) r0) n hn).1
  have hbm : (startReset (setParams s T 99999 p cb) r0).beatsPerMeasure = 99999 := rfl
  rw [hbm] at hs
  refine ⟨?_, ?_, ?_⟩
  · rw [hs]
    simp
  · intro h0
    rw [hs, h0]
    rfl
  · intro hpos hlt
    rw [hs, Nat.mod_eq_of_lt hlt]
    simp
    omega

/-- Witness for C3 (amended): beat 0 of a concrete sentinel run is flagged
accent and satisfies the amended characterisation. -/
theorem sentinel_accent_amended_witness :
    ((scheduleNote engOff0 0 (1/20)).accent = true ↔
      (scheduleNote engOff0 0 (1/20)).beat % 99999 = 0) ∧
    ((scheduleNote engOff0 0 (1/20)).beat = 0 →
      (scheduleNote engOff0 0 (1/20)).accent = true) ∧
    (0 < (scheduleNote engOff0 0 (1/20)).beat →
      (scheduleNote engOff0 0 (1/20)).beat < 99999 →
      (scheduleNote engOff0 0 (1/20)).accent = false) :=
  sentinel_accent_amended initialEngine 60 SoundProfile.DIGITAL none 0 [] _ rfl
    (scheduleNote engOff0 0 (1/20))
    (by show scheduleNote engOff0 0 (1/20) ∈ flatNotes (runSegs engOff0 [0]).1
        rw [engOff0_notes]
        exact List.mem_singleton_self _)

/-- Claim C6 counterexample: tempo 60 run, one beat emitted at 1/20; then
`setParams` changes the tempo to 120; the first note scheduled after the
change lands at 21/20, i.e. spaced 60/60 (the OLD tempo) after its
predecessor, not 60/120 as the claim requires. -/
theorem tempo_change_first_note_cex :
    (flatNotes (runSegs engRun0 [0]).1).map ScheduledNote.time = [1/20] ∧
    (flatNotes (runSegs engT2 [1]).1).map ScheduledNote.time = [21/20] ∧
    (21/20 : ℚ) - 1/20 = 60/60 ∧
    ¬ ((21/20 : ℚ) - 1/20 = 60/120) := by
  refine ⟨?_, ?_, by norm_num, by norm_num⟩
  · rw [engRun0_notes]
    rfl
  · rw [engT2_notes]
    rfl

/-- Claim C6 amended: a mid-run `setParams` tempo change leaves every note
emitted before the change with its old-tempo target time; the FIRST note
scheduled after the change is still spaced `60/oldTempo` after its
predecessor (its target time was fixed by `nextNote()` when that
predecessor was emitted); every LATER note scheduled after the change is
spaced `60/newTempo` after its predecessor. -/
theorem tempo_change_amended (s : EngineState) (T1 T2 : ℚ) (B B2 : Nat)
    (p p2 : SoundProfile) (cb cb2 : Option (Nat → Nat)) (r0 : ℚ)
    (rs1 rs2 : List ℚ) (ns1 ns2 : List ScheduledNote)
    (h1 : ns1 = flatNotes
      (runSegs (startReset (setParams s T1 B p cb) r0) (r0 :: rs1)).1)
    (h2 : ns2 = flatNotes
      (runSegs (setParams
        (runSegs (startReset (setParams s T1 B p cb) r0) (r0 :: rs1)).2
        T2 B2 p2 cb2) rs2).1) :
    (∀ i (h : i < ns1.length),
      (ns1.get ⟨i, h⟩).time = r0 + 1/20 + (i : ℚ) * (60 / T1)) ∧
    (∀ (ha : 0 < ns1.length) (hb : 0 < ns2.length),
      (ns2.get ⟨0, hb⟩).time =
        (ns1.get ⟨ns1.length - 1, Nat.sub_lt ha Nat.one_pos⟩).time + 60 / T1) ∧
    (∀ i (h : i + 1 < ns2.length),
      (ns2.get ⟨i + 1, h⟩).time =
        (ns2.get ⟨i, Nat.lt_of_succ_lt h⟩).time + 60 / T2) := by
  subst h1 h2
  have hnt0 : (startReset (setParams s T1 B p cb) r0).nextNoteTime = r0 + 1/20 := rfl
  have hcb0 : (startReset (setParams s T1 B p cb) r0).currentBeat = 0 := rfl
  have hbpm0 : (startReset (setParams s T1 B p cb) r0).bpm = T1 := rfl
  have hbpm2 : (setParams
      (runSegs (startReset (setParams s T1 B p cb) r0) (r0 :: rs1)).2
      T2 B2 p2 cb2).bpm = T2 := rfl
  refine ⟨?_, ?_, ?_⟩
  · intro i h
    rw [runSegs_get (r0 :: rs1) (startReset (setParams s T1 B p cb) r0) i h,
      scheduleNote_time, hnt0, hbpm0]
  · intro ha hb
    rw [runSegs_get rs2 (setParams
        (runSegs (startReset (setParams s T1 B p cb) r0) (r0 :: rs1)).2
        T2 B2 p2 cb2) 0 hb,
      runSegs_get (r0 :: rs1) (startReset (setParams s T1 B p cb) r0)
        ((flatNotes (runSegs (startReset (setParams s T1 B p cb) r0)
          (r0 :: rs1)).1).length - 1) (Nat.sub_lt ha Nat.one_pos),
      scheduleNote_time, scheduleNote_time]
    rw [show (setParams
        (runSegs (startReset (setParams s T1 B p cb) r0) (r0 :: rs1)).2
        T2 B2 p2 cb2).nextNoteTime =
        (runSegs (startReset (setParams s T1 B p cb) r0) (r0 :: rs1)).2.nextNoteTime
      from rfl]
    rw [runSegs_snd_nextNoteTime (r0 :: rs1) (startReset (setParams s T1 B p cb) r0)]
    rw [hnt0, hbpm0]
    have hL1 : (1 : ℕ) ≤ (flatNotes (runSegs (startReset (setParams s T1 B p cb) r0)
      (r0 :: rs1)).1).length := ha
    rw [Nat.cast_sub hL1]
    push_cast
    ring
  · intro i h
    rw [runSegs_get rs2 (setParams
        (runSegs (startReset (setParams s T1 B p cb) r0) (r0 :: rs1)).2
        T2 B2 p2 cb2) (i + 1) h,
      runSegs_get rs2 (setParams
        (runSegs (startReset (setParams s T1 B p cb) r0) (r0 :: rs1)).2
        T2 B2 p2 cb2) i (Nat.lt_of_succ_lt h),
      scheduleNote_time, scheduleNote_time, hbpm2]
    push_cast
    ring

/-- Witness for C6 (amended): the concrete 60→120 bpm change of the
counterexample, instantiating the amended claim. -/
theorem tempo_change_amended_witness :
    ([scheduleNote engRun0 0 (1/20)] = flatNotes
      (runSegs (startReset (setParams initialEngine (60 : ℚ) 4
        SoundProfile.DIGITAL none) 0) (0 :: [])).1) ∧
    ([scheduleNote engT2 1 (21/20)] = flatNotes
      (runSegs (setParams
        (runSegs (startReset (setParams initialEngine (60 : ℚ) 4
          SoundProfile.DIGITAL none) 0) (0 :: [])).2
        (120 : ℚ) 4 SoundProfile.DIGITAL none) [1]).1) ∧
    ((∀ i (h : i < [scheduleNote engRun0 0 (1/20)].length),
      ([scheduleNote engRun0 0 (1/20)].get ⟨i, h⟩).time =
        0 + 1/20 + (i : ℚ) * (60 / (60 : ℚ))) ∧
    (∀ (ha : 0 < [scheduleNote engRun0 0 (1/20)].length)
        (hb : 0 < [scheduleNote engT2 1 (21/20)].length),
      ([scheduleNote engT2 1 (21/20)].get ⟨0, hb⟩).time =
        ([scheduleNote engRun0 0 (1/20)].get
          ⟨[scheduleNote engRun0 0 (1/20)].length - 1,
            Nat.sub_lt ha Nat.one_pos⟩).time + 60 / (60 : ℚ)) ∧
    (∀ i (h : i + 1 < [scheduleNote engT2 1 (21/20)].length),
      ([scheduleNote engT2 1 (21/20)].get ⟨i + 1, h⟩).time =
        ([scheduleNote engT2 1 (21/20)].get
          ⟨i, Nat.lt_of_succ_lt h⟩).time + 60 / (120 : ℚ))) :=
  ⟨engRun0_notes.symm, engT2_notes.symm,
    tempo_change_amended initialEngine 60 120 4 4 SoundProfile.DIGITAL
      SoundProfile.DIGITAL none none 0 [] [1] _ _
      engRun0_notes.symm engT2_notes.symm⟩

/-- Claim C7: under the Custom profile, an accent beat with an accent
buffer present plays that buffer, a non-accent beat with a regular buffer
present plays that buffer, and a beat whose required buffer is absent
falls back to Digital synthesis (a tone, not silence). -/
theorem custom_profile_buffer_fallback (s : EngineState)
    (hp : s.profile = SoundProfile.CUSTOM) (r0 : ℚ) (rs : List ℚ)
    (ns : List ScheduledNote)
    (hns : ns = flatNotes (runSegs (startReset s r0) (r0 :: rs)).1) :
    ∀ n ∈ ns,
      (∀ buf, n.accent = true → s.customAccentBuffer = some buf →
        n.sound = PlayedSound.custom buf) ∧
      (∀ buf, n.accent = false → s.customBeatBuffer = some buf →
        n.sound = PlayedSound.custom buf) ∧
      (n.accent = true → s.customAccentBuffer = none →
        n.sound = playDigital true) ∧
      (n.accent = false → s.customBeatBuffer = none →
        n.sound = playDigital false) := by
  subst hns
  intro n hn
  obtain ⟨ha, hsound⟩ := runSegs_note_shape (r0 :: rs) (startReset s r0) n hn
  have hpr : (startReset s r0).profile = s.profile := rfl
  have hba : (startReset s r0).customAccentBuffer = s.customAccentBuffer := rfl
  have hbb : (startReset s r0).customBeatBuffer = s.customBeatBuffer := rfl
  rw [hpr, hba, hbb, hp] at hsound
  refine ⟨?_, ?_, ?_, ?_⟩
  · intro buf hacc hbuf
    rw [hsound, hacc, hbuf]
    simp [renderSound]
  · intro buf hacc hbuf
    rw [hsound, hacc, hbuf]
    simp [renderSound]
  · intro hacc hbuf
    rw [hsound, hacc, hbuf]
    simp [renderSound]
  · intro hacc hbuf
    rw [hsound, hacc, hbuf]
    simp [renderSound]

/-- Witness for C7: a concrete Custom run with only an accent buffer: the
accent beat (index 0) plays the custom buffer, the non-accent beat
(index 1) falls back to the Digital click. -/
theorem custom_profile_buffer_fallback_witness :
    engC.profile = SoundProfile.CUSTOM ∧
    (scheduleNote engC0 0 (1/20)).accent = true ∧
    engC.customAccentBuffer = some ⟨7⟩ ∧
    (scheduleNote engC0 0 (1/20)).sound = PlayedSound.custom ⟨7⟩ ∧
    (scheduleNote engC0 1 (21/20)).accent = false ∧
    engC.customBeatBuffer = none ∧
    (scheduleNote engC0 1 (21/20)).sound = playDigital false :=
  ⟨rfl, rfl, rfl,
    (custom_profile_buffer_fallback engC rfl 0 [1] _ rfl
      (scheduleNote engC0 0 (1/20))
      (by show scheduleNote engC0 0 (1/20) ∈ flatNotes (runSegs engC0 [0, 1]).1
          rw [engC0_notes]
          simp)).1 ⟨7⟩ rfl rfl,
    rfl, rfl,
    (custom_profile_buffer_fallback engC rfl 0 [1] _ rfl
      (scheduleNote engC0 1 (21/20))
      (by show scheduleNote engC0 1 (21/20) ∈ flatNotes (runSegs engC0 [0, 1]).1
          rw [engC0_notes]
          simp)).2.2.2 rfl rfl⟩

/-- The host right after the engine is created and configured, with no
timer pending. -/
def hostRun : HostState := hostOf engRun

/-- Claim C4 (evaluation at the failing input): `start()` has no
double-start guard — after `start(); start()` two self-re-arming timer
callbacks are pending (two concurrent poll chains), and `stop()` cancels
only the id stored in `timerID`, leaving the first chain pending. -/
theorem double_start_spawns_second_poller :
    ((hostStart hostRun 0).1.pending.length = 1) ∧
    ((hostStart (hostStart hostRun 0).1 0).1.pending.length = 2) ∧
    ((hostStop (hostStart (hostStart hostRun 0).1 0).1).pending.length = 1) :=
  ⟨rfl, rfl, rfl⟩

/-- Claim C5: under the stated assumption that every poll happens less
than the 100 ms schedule-ahead window after its predecessor, every
scheduled note's target time is strictly later than the clock reading of
the poll that handed it to the renderer, and every note of the `start()`
poll is at least the 50 ms startup offset after the start clock reading. -/
theorem notes_never_scheduled_late (s : EngineState) (T : ℕ) (hT : 1 ≤ T)
    (hw : s.scheduleAheadTime = 1/10) (B : Nat) (p : SoundProfile)
    (cb : Option (Nat → Nat)) (r0 : ℚ) (rs : List ℚ)
    (hgap : gapsLt (1/10) r0 rs) :
    (∀ pr ∈ (runSegs (startReset (setParams s (T : ℚ) B p cb) r0) (r0 :: rs)).1,
      ∀ n ∈ pr.2, pr.1 < n.time) ∧
    (∀ n ∈ (scheduler (startReset (setParams s (T : ℚ) B p cb) r0) r0).1,
      r0 + 1/20 ≤ n.time) := by
  have hb : 0 < (startReset (setParams s (T : ℚ) B p cb) r0).bpm := by
    show (0 : ℚ) < (T : ℚ)
    exact_mod_cast hT
  have hw' : (startReset (setParams s (T : ℚ) B p cb) r0).scheduleAheadTime = 1/10 := hw
  constructor
  · apply runSegs_safety (r0 :: rs) _ (r0 - 1/20) hb hw'
    · exact ⟨by linarith, hgap⟩
    · show r0 - 1/20 + 1/10 ≤ r0 + 1/20
      linarith
  · intro n hn
    exact scheduler_time_ge (startReset (setParams s (T : ℚ) B p cb) r0) r0
      (le_of_lt (div_pos (by norm_num) hb)) n hn

/-- Witness for C5: the concrete one-poll run at tempo 60. -/
theorem notes_never_scheduled_late_witness :
    1 ≤ 60 ∧ initialEngine.scheduleAheadTime = 1/10 ∧ gapsLt (1/10) 0 [] ∧
    ((∀ pr ∈ (runSegs (startReset (setParams initialEngine ((60 : ℕ) : ℚ) 4
        SoundProfile.DIGITAL none) 0) (0 :: [])).1,
      ∀ n ∈ pr.2, pr.1 < n.time) ∧
    (∀ n ∈ (scheduler (startReset (setParams initialEngine ((60 : ℕ) : ℚ) 4
        SoundProfile.DIGITAL none) 0) 0).1,
      0 + 1/20 ≤ n.time)) :=
  ⟨by decide, rfl, True.intro,
    notes_never_scheduled_late initialEngine 60 (by decide) rfl 4
      SoundProfile.DIGITAL none 0 [] True.intro⟩

/-- Claim C8: a failed decode inside `setCustomSounds` never escapes to the
caller: the corresponding buffer ends up cleared, the failure is logged,
and a Custom-profile beat that needs the missing buffer falls back to
Digital synthesis. (The model's `setCustomSounds` is a total function:
every failure of the decode oracle is caught inside `decodeBase64`.) -/
theorem decode_failure_nonfatal (decode : String → DecodeResult)
    (s : EngineState) (accentData beatData : Option String) :
    (∀ d e, accentData = some d → decode d = DecodeResult.err e →
      (setCustomSounds decode s accentData beatData).1.customAccentBuffer = none ∧
      decodeFailureLog ∈ (setCustomSounds decode s accentData beatData).2 ∧
      renderSound SoundProfile.CUSTOM
        (setCustomSounds decode s accentData beatData).1.customAccentBuffer
        (setCustomSounds decode s accentData beatData).1.customBeatBuffer true =
        playDigital true) ∧
    (∀ d e, beatData = some d → decode d = DecodeResult.err e →
      (setCustomSounds decode s accentData beatData).1.customBeatBuffer = none ∧
      decodeFailureLog ∈ (setCustomSounds decode s accentData beatData).2 ∧
      renderSound SoundProfile.CUSTOM
        (setCustomSounds decode s accentData beatData).1.customAccentBuffer
        (setCustomSounds decode s accentData beatData).1.customBeatBuffer false =
        playDigital false) := by
  constructor
  · rintro d e rfl hd
    refine ⟨?_, ?_, ?_⟩
    · simp [setCustomSounds, decodeBase64, hd]
    · simp [setCustomSounds, decodeBase64, hd]
    · simp [setCustomSounds, decodeBase64, hd, renderSound]
  · rintro d e rfl hd
    refine ⟨?_, ?_, ?_⟩
    · simp [setCustomSounds, decodeBase64, hd]
    · simp [setCustomSounds, decodeBase64, hd]
    · simp [setCustomSounds, decodeBase64, hd, renderSound]

/-- A decode oracle that always fails, standing for malformed data. -/
def failDecode : String → DecodeResult := fun _ => DecodeResult.err "bad data"

/-- Witness for C8: both custom sound data fail to decode; both buffers end
up cleared, the condition is logged, and both kinds of beat fall back to
the Digital click. -/
theorem decode_failure_nonfatal_witness :
    (some "x" : Option String) = some "x" ∧
    failDecode "x" = DecodeResult.err "bad data" ∧
    ((setCustomSounds failDecode initialEngine (some "x") (some "y")).1.customAccentBuffer = none ∧
     decodeFailureLog ∈ (setCustomSounds failDecode initialEngine (some "x") (some "y")).2 ∧
     renderSound SoundProfile.CUSTOM
       (setCustomSounds failDecode initialEngine (some "x") (some "y")).1.customAccentBuffer
       (setCustomSounds failDecode initialEngine (some "x") (some "y")).1.customBeatBuffer true =
       playDigital true) ∧
    ((setCustomSounds failDecode initialEngine (some "x") (some "y")).1.customBeatBuffer = none ∧
     decodeFailureLog ∈ (setCustomSounds failDecode initialEngine (some "x") (some "y")).2 ∧
     renderSound SoundProfile.CUSTOM
       (setCustomSounds failDecode initialEngine (some "x") (some "y")).1.customAccentBuffer
       (setCustomSounds failDecode initialEngine (some "x") (some "y")).1.customBeatBuffer false =
       playDigital false) :=
  ⟨rfl, rfl,
    (decode_failure_nonfatal failDecode initialEngine (some "x") (some "y")).1
      "x" "bad data" rfl rfl,
    (decode_failure_nonfatal failDecode initialEngine (some "x") (some "y")).2
      "y" "bad data" rfl rfl⟩

/-- For a negative stored tempo the loop guard can never become false:
each iteration moves `nextNoteTime` further down, so after any number of
iterations it is still inside the window. -/
theorem schedulerAux_neg_bpm : ∀ (F : Nat) (s : EngineState) (now : ℚ),
    s.bpm < 0 → s.nextNoteTime < now + s.scheduleAheadTime →
    (schedulerAux F s now).2.nextNoteTime < now + s.scheduleAheadTime
  | 0, s, now, _, h2 => by simpa [schedulerAux] using h2
  | F + 1, s, now, hneg, h2 => by
    have hstep : 60 / s.bpm < 0 := div_neg_of_pos_of_neg (by norm_num) hneg
    have h2' : (nextNote s).nextNoteTime < now + (nextNote s).scheduleAheadTime := by
      simp only [nextNote]
      linarith
    have hrec := schedulerAux_neg_bpm F (nextNote s) now hneg h2'
    simp only [schedulerAux, if_pos h2]
    simpa [nextNote] using hrec

/-- Claim C9: (i) with a positive stored tempo, every poll's while-loop
terminates: at loop exit the guard is false (`nextNoteTime` has reached
`now + scheduleAheadTime`); (ii) when the tempo is positive each iteration
strictly increases `nextNoteTime`; (iii) `setParams` stores the tempo
argument verbatim with no validation (0 and negative values included), so
positivity is a genuine precondition not enforced by the interface; and
(iv) for a negative stored tempo the guard stays true after any number of
iterations — the loop would never terminate. -/
theorem scheduler_termination_and_no_validation :
    (∀ (s : EngineState) (now : ℚ), 0 < s.bpm →
      now + s.scheduleAheadTime ≤ (scheduler s now).2.nextNoteTime) ∧
    (∀ s : EngineState, 0 < s.bpm → s.nextNoteTime < (nextNote s).nextNoteTime) ∧
    (∀ (s : EngineState) (b : ℚ) (B : Nat) (p : SoundProfile)
      (cb : Option (Nat → Nat)), (setParams s b B p cb).bpm = b) ∧
    (∀ (F : Nat) (s : EngineState) (now : ℚ), s.bpm < 0 →
      s.nextNoteTime < now + s.scheduleAheadTime →
      (schedulerAux F s now).2.nextNoteTime < now + s.scheduleAheadTime) :=
  ⟨fun s now hb => scheduler_final_ge s now hb,
   fun s hb => by
     have hstep : 0 < 60 / s.bpm := div_pos (by norm_num) hb
     simp only [nextNote]
     linarith,
   fun _ _ _ _ _ => rfl,
   schedulerAux_neg_bpm⟩

/-- The engine holding the unvalidated tempo `-60`, right after a
`start()` at clock reading 0. -/
def engNeg : EngineState :=
  startReset (setParams initialEngine (-60) 4 SoundProfile.DIGITAL none) 0

/-- Witness for C9: tempo 60 terminates a poll with guard false; tempo -60
is stored verbatim by `setParams` and keeps the guard true after 5
iterations. -/
theorem scheduler_termination_and_no_validation_witness :
    ((0 : ℚ) < engRun0.bpm) ∧
    (0 + engRun0.scheduleAheadTime ≤ (scheduler engRun0 0).2.nextNoteTime) ∧
    (engRun0.nextNoteTime < (nextNote engRun0).nextNoteTime) ∧
    ((setParams initialEngine (-60) 4 SoundProfile.DIGITAL none).bpm = -60) ∧
    (engNeg.bpm < 0) ∧
    (engNeg.nextNoteTime < 0 + engNeg.scheduleAheadTime) ∧
    ((schedulerAux 5 engNeg 0).2.nextNoteTime < 0 + engNeg.scheduleAheadTime) :=
  ⟨by show (0 : ℚ) < 60; norm_num,
    scheduler_termination_and_no_validation.1 engRun0 0
      (by show (0 : ℚ) < 60; norm_num),
    scheduler_termination_and_no_validation.2.1 engRun0
      (by show (0 : ℚ) < 60; norm_num),
    scheduler_termination_and_no_validation.2.2.1 initialEngine (-60) 4
      SoundProfile.DIGITAL none,
    by show (-60 : ℚ) < 0; norm_num,
    by show (0 : ℚ) + 1/20 < 0 + 1/10; norm_num,
    scheduler_termination_and_no_validation.2.2.2 5 engNeg 0
      (by show (-60 : ℚ) < 0; norm_num)
      (by show (0 : ℚ) + 1/20 < 0 + 1/10; norm_num)⟩

